import Mathlib

/-!
Verification of the CryptoNight hash core (`cryptonight.go`, package
`ekyu.moe/cryptonight`) against its natural-language specification.

The Go source is shallowly embedded below.  64-bit machine words are
modelled as `Nat` with explicit `% 2 ^ 64` at every operation that can
overflow; the 2 MiB scratchpad (`[262144]uint64`) is modelled as a total
function `Nat → Nat` whose relevant domain is `[0, 262144)`; the 25-lane
Keccak state is a function `Nat → Nat` read at lanes `0..24`.

The sub-algorithms whose implementations live outside the embedded file
(the `internal/sha3` Keccak primitives, the `internal/aes` round bodies,
`byteMul`, `math.Sqrt`, and the four imported finalist hashers) are
abstracted; everything the claims depend on is the control and data flow
of `Cache.Sum` itself, which is embedded instruction by instruction.
-/

namespace CryptoNight

/-- Number of 64-bit words in the scratchpad: `2 * 1024 * 1024 / 8`. -/
def spWords : Nat := 2 * 1024 * 1024 / 8

/-- `TO_ADDR(a) = ((a[0]) & 0x1ffff0) >> 3`: the 64-bit-word index of the
scratchpad cell addressed by the low lane of a 128-bit value. -/
def toAddr (v0 : Nat) : Nat := (v0 &&& 0x1ffff0) >>> 3

/-- The 128-bit cell index `(v0 & 0x1ffff0) >> 4` used by the spec's
addressing description. -/
def cellIdx (v0 : Nat) : Nat := (v0 &&& 0x1ffff0) >>> 4

/-- Little-endian 16-bit lane `j` (0 ≤ j < 4) of a 64-bit word, i.e. the
semantics of the `U64_U16_LEN8` reinterpret-cast view. -/
def u16lane (w j : Nat) : Nat := w / 2 ^ (16 * j) % 2 ^ 16

/-- Re-assemble a 64-bit word from its four little-endian 16-bit lanes. -/
def packU16 (l0 l1 l2 l3 : Nat) : Nat :=
  l0 + l1 * 2 ^ 16 + l2 * 2 ^ 32 + l3 * 2 ^ 48

/-- 16-bit lane `j` (0 ≤ j < 8) of the 128-bit chunk that starts at
64-bit word index `base` of the scratchpad. -/
def chunkLane (sp : Nat → Nat) (base j : Nat) : Nat :=
  u16lane (sp (base + j / 4)) (j % 4)

/-- `VARIANT2_SHUFFLE()`: the Monero variant-2 shuffle step at word
address `addr`.  `chunk0`, `chunk1`, `chunk2` are the 128-bit cells at
word indices `addr^0x02`, `addr^0x04`, `addr^0x06` (byte addresses
`addr*8 ^ 0x10` etc.), each viewed as eight little-endian 16-bit lanes.
The Go source performs one simultaneous 24-way assignment; a pure
function reading the old scratchpad everywhere is its exact semantics. -/
def shuffleAt (sp : Nat → Nat) (addr : Nat) : Nat → Nat := fun i =>
  let c0 := fun j => chunkLane sp (addr ^^^ 2) j
  let c1 := fun j => chunkLane sp (addr ^^^ 4) j
  let c2 := fun j => chunkLane sp (addr ^^^ 6) j
  if i = addr ^^^ 2 then packU16 (c2 2) (c2 6) (c2 3) (c2 7)
  else if i = (addr ^^^ 2) + 1 then packU16 (c2 0) (c2 1) (c2 4) (c2 5)
  else if i = addr ^^^ 4 then packU16 (c0 2) (c0 5) (c0 3) (c0 4)
  else if i = (addr ^^^ 4) + 1 then packU16 (c0 6) (c0 7) (c0 0) (c0 1)
  else if i = addr ^^^ 6 then packU16 (c1 1) (c1 5) (c1 0) (c1 4)
  else if i = (addr ^^^ 6) + 1 then packU16 (c1 2) (c1 3) (c1 6) (c1 7)
  else sp i

/-- Lane `i` (0 ≤ i < 24) of the concatenation `chunk0 ‖ chunk1 ‖ chunk2`
of the three shuffle chunks at word address `addr`. -/
def lane24 (sp : Nat → Nat) (addr : Nat) (i : Fin 24) : Nat :=
  chunkLane sp (addr ^^^ (2 * ((i : Nat) / 8 + 1))) ((i : Nat) % 8)

/-- The fixed Monero v2 permutation table from the source comment:
`(0..23) -> (18 22 19 23 16 17 20 21 2 5 3 4 6 7 0 1 9 13 8 12 10 11 14 15)`. -/
def v2perm : Fin 24 → Fin 24 :=
  ![18, 22, 19, 23, 16, 17, 20, 21, 2, 5, 3, 4, 6, 7, 0, 1,
    9, 13, 8, 12, 10, 11, 14, 15]

section ShuffleLemmas

lemma chunkLane_lt (sp : Nat → Nat) (base j : Nat) :
    chunkLane sp base j < 65536 := by
  unfold chunkLane u16lane
  exact Nat.mod_lt _ (by norm_num)

lemma u16lane_packU16_zero (l0 l1 l2 l3 : Nat) (h0 : l0 < 65536) :
    u16lane (packU16 l0 l1 l2 l3) 0 = l0 := by
  unfold u16lane packU16
  norm_num
  omega

lemma u16lane_packU16_one (l0 l1 l2 l3 : Nat) (h0 : l0 < 65536)
    (h1 : l1 < 65536) : u16lane (packU16 l0 l1 l2 l3) 1 = l1 := by
  unfold u16lane packU16
  norm_num
  omega

lemma u16lane_packU16_two (l0 l1 l2 l3 : Nat) (h0 : l0 < 65536)
    (h1 : l1 < 65536) (h2 : l2 < 65536) :
    u16lane (packU16 l0 l1 l2 l3) 2 = l2 := by
  unfold u16lane packU16
  norm_num
  omega

lemma u16lane_packU16_three (l0 l1 l2 l3 : Nat) (h0 : l0 < 65536)
    (h1 : l1 < 65536) (h2 : l2 < 65536) (h3 : l3 < 65536) :
    u16lane (packU16 l0 l1 l2 l3) 3 = l3 := by
  unfold u16lane packU16
  norm_num
  omega

lemma xor_ne_xor (a : Nat) {b c : Nat} (h : b ≠ c) : a ^^^ b ≠ a ^^^ c :=
  fun he => h (Nat.xor_right_injective he)

lemma xor_mod_two (a b : Nat) (hb : b % 2 = 0) : (a ^^^ b) % 2 = a % 2 := by
  have he : Even b := Nat.even_iff.mpr hb
  have h := @Nat.even_xor a b
  rcases Nat.even_or_odd a with ha | ha
  · have : Even (a ^^^ b) := h.mpr (by constructor <;> intro <;> assumption)
    rw [Nat.even_iff.mp this, Nat.even_iff.mp ha]
  · have hna : ¬ Even a := (Nat.not_even_iff_odd).mpr ha
    have : ¬ Even (a ^^^ b) := by
      intro hx
      exact hna ((h.mp hx).mpr he)
    rw [Nat.not_even_iff.mp this, Nat.not_even_iff.mp hna]

/-- The six 64-bit words touched by the shuffle are pairwise distinct,
for every word address. -/
lemma shuffle_words_distinct (a : Nat) :
    (a ^^^ 2 ≠ (a ^^^ 2) + 1) ∧ (a ^^^ 2 ≠ a ^^^ 4) ∧ (a ^^^ 2 ≠ (a ^^^ 4) + 1) ∧
    (a ^^^ 2 ≠ a ^^^ 6) ∧ (a ^^^ 2 ≠ (a ^^^ 6) + 1) ∧
    ((a ^^^ 2) + 1 ≠ a ^^^ 4) ∧ ((a ^^^ 2) + 1 ≠ (a ^^^ 4) + 1) ∧
    ((a ^^^ 2) + 1 ≠ a ^^^ 6) ∧ ((a ^^^ 2) + 1 ≠ (a ^^^ 6) + 1) ∧
    (a ^^^ 4 ≠ (a ^^^ 4) + 1) ∧ (a ^^^ 4 ≠ a ^^^ 6) ∧ (a ^^^ 4 ≠ (a ^^^ 6) + 1) ∧
    ((a ^^^ 4) + 1 ≠ a ^^^ 6) ∧ ((a ^^^ 4) + 1 ≠ (a ^^^ 6) + 1) ∧
    (a ^^^ 6 ≠ (a ^^^ 6) + 1) := by
  have p2 : (a ^^^ 2) % 2 = a % 2 := xor_mod_two a 2 (by norm_num)
  have p4 : (a ^^^ 4) % 2 = a % 2 := xor_mod_two a 4 (by norm_num)
  have p6 : (a ^^^ 6) % 2 = a % 2 := xor_mod_two a 6 (by norm_num)
  have x24 : a ^^^ 2 ≠ a ^^^ 4 := xor_ne_xor a (by norm_num)
  have x26 : a ^^^ 2 ≠ a ^^^ 6 := xor_ne_xor a (by norm_num)
  have x46 : a ^^^ 4 ≠ a ^^^ 6 := xor_ne_xor a (by norm_num)
  refine ⟨by omega, x24, by omega, x26, by omega, by omega, by omega,
    by omega, by omega, by omega, x46, by omega, by omega, by omega, by omega⟩

lemma shuffleAt_w1 (sp : Nat → Nat) (a : Nat) :
    shuffleAt sp a (a ^^^ 2) =
      packU16 (chunkLane sp (a ^^^ 6) 2) (chunkLane sp (a ^^^ 6) 6)
        (chunkLane sp (a ^^^ 6) 3) (chunkLane sp (a ^^^ 6) 7) := by
  unfold shuffleAt
  rw [if_pos rfl]

lemma shuffleAt_w2 (sp : Nat → Nat) (a : Nat) :
    shuffleAt sp a ((a ^^^ 2) + 1) =
      packU16 (chunkLane sp (a ^^^ 6) 0) (chunkLane sp (a ^^^ 6) 1)
        (chunkLane sp (a ^^^ 6) 4) (chunkLane sp (a ^^^ 6) 5) := by
  obtain ⟨d1, _⟩ := shuffle_words_distinct a
  unfold shuffleAt
  rw [if_neg (Ne.symm d1), if_pos rfl]

lemma shuffleAt_w3 (sp : Nat → Nat) (a : Nat) :
    shuffleAt sp a (a ^^^ 4) =
      packU16 (chunkLane sp (a ^^^ 2) 2) (chunkLane sp (a ^^^ 2) 5)
        (chunkLane sp (a ^^^ 2) 3) (chunkLane sp (a ^^^ 2) 4) := by
  obtain ⟨_, d2, _, _, _, d6, _⟩ := shuffle_words_distinct a
  unfold shuffleAt
  rw [if_neg (Ne.symm d2), if_neg (Ne.symm d6), if_pos rfl]

lemma shuffleAt_w4 (sp : Nat → Nat) (a : Nat) :
    shuffleAt sp a ((a ^^^ 4) + 1) =
      packU16 (chunkLane sp (a ^^^ 2) 6) (chunkLane sp (a ^^^ 2) 7)
        (chunkLane sp (a ^^^ 2) 0) (chunkLane sp (a ^^^ 2) 1) := by
  obtain ⟨_, _, d3, _, _, _, d7, _, _, d10, _⟩ := shuffle_words_distinct a
  unfold shuffleAt
  rw [if_neg (Ne.symm d3), if_neg (Ne.symm d7), if_neg (Ne.symm d10),
    if_pos rfl]

lemma shuffleAt_w5 (sp : Nat → Nat) (a : Nat) :
    shuffleAt sp a (a ^^^ 6) =
      packU16 (chunkLane sp (a ^^^ 4) 1) (chunkLane sp (a ^^^ 4) 5)
        (chunkLane sp (a ^^^ 4) 0) (chunkLane sp (a ^^^ 4) 4) := by
  obtain ⟨_, _, _, d4, _, _, _, d8, _, _, d11, _, d13, _⟩ :=
    shuffle_words_distinct a
  unfold shuffleAt
  rw [if_neg (Ne.symm d4), if_neg (Ne.symm d8), if_neg (Ne.symm d11),
    if_neg (Ne.symm d13), if_pos rfl]

lemma shuffleAt_w6 (sp : Nat → Nat) (a : Nat) :
    shuffleAt sp a ((a ^^^ 6) + 1) =
      packU16 (chunkLane sp (a ^^^ 4) 2) (chunkLane sp (a ^^^ 4) 3)
        (chunkLane sp (a ^^^ 4) 6) (chunkLane sp (a ^^^ 4) 7) := by
  obtain ⟨_, _, _, _, d5, _, _, _, d9, _, _, d12, _, d14, d15⟩ :=
    shuffle_words_distinct a
  unfold shuffleAt
  rw [if_neg (Ne.symm d5), if_neg (Ne.symm d9), if_neg (Ne.symm d12),
    if_neg (Ne.symm d14), if_neg (Ne.symm d15), if_pos rfl]

end ShuffleLemmas

/-- C1: In variant 2, the shuffle step reads `chunk0 = scratchpad[addr ^ 0x10]`,
`chunk1 = scratchpad[addr ^ 0x20]`, `chunk2 = scratchpad[addr ^ 0x30]`
(word indices `addr^0x02`, `addr^0x04`, `addr^0x06`, each cell viewed as
eight little-endian 16-bit lanes) and reassigns all 24 half-words in one
simultaneous assignment: every new lane is drawn from the OLD scratchpad,
following the fixed Monero v2 permutation table
`(0..23) -> (18 22 19 23 16 17 20 21 2 5 3 4 6 7 0 1 9 13 8 12 10 11 14 15)`.
The second conjunct states the chunk-locality: the source chunk of
destination chunk `c` is chunk `(c + 2) % 3`, i.e. the new chunk0 draws only
from the old chunk2, the new chunk1 only from the old chunk0, and the new
chunk2 only from the old chunk1. -/
theorem variant2_shuffle_is_v2perm (sp : Nat → Nat) (addr : Nat) :
    (∀ i : Fin 24,
      lane24 (shuffleAt sp addr) addr i = lane24 sp addr (v2perm i)) ∧
    (∀ i : Fin 24, (v2perm i : Nat) / 8 = ((i : Nat) / 8 + 2) % 3) := by
  constructor
  · intro i
    fin_cases i
    · show u16lane (shuffleAt sp addr (addr ^^^ 2)) 0 = u16lane (sp (addr ^^^ 6)) 2
      rw [shuffleAt_w1]
      exact u16lane_packU16_zero _ _ _ _ (chunkLane_lt _ _ _)
    · show u16lane (shuffleAt sp addr (addr ^^^ 2)) 1 = u16lane (sp ((addr ^^^ 6) + 1)) 2
      rw [shuffleAt_w1]
      exact u16lane_packU16_one _ _ _ _ (chunkLane_lt _ _ _) (chunkLane_lt _ _ _)
    · show u16lane (shuffleAt sp addr (addr ^^^ 2)) 2 = u16lane (sp (addr ^^^ 6)) 3
      rw [shuffleAt_w1]
      exact u16lane_packU16_two _ _ _ _ (chunkLane_lt _ _ _) (chunkLane_lt _ _ _) (chunkLane_lt _ _ _)
    · show u16lane (shuffleAt sp addr (addr ^^^ 2)) 3 = u16lane (sp ((addr ^^^ 6) + 1)) 3
      rw [shuffleAt_w1]
      exact u16lane_packU16_three _ _ _ _ (chunkLane_lt _ _ _) (chunkLane_lt _ _ _) (chunkLane_lt _ _ _) (chunkLane_lt _ _ _)
    · show u16lane (shuffleAt sp addr ((addr ^^^ 2) + 1)) 0 = u16lane (sp (addr ^^^ 6)) 0
      rw [shuffleAt_w2]
      exact u16lane_packU16_zero _ _ _ _ (chunkLane_lt _ _ _)
    · show u16lane (shuffleAt sp addr ((addr ^^^ 2) + 1)) 1 = u16lane (sp (addr ^^^ 6)) 1
      rw [shuffleAt_w2]
      exact u16lane_packU16_one _ _ _ _ (chunkLane_lt _ _ _) (chunkLane_lt _ _ _)
    · show u16lane (shuffleAt sp addr ((addr ^^^ 2) + 1)) 2 = u16lane (sp ((addr ^^^ 6) + 1)) 0
      rw [shuffleAt_w2]
      exact u16lane_packU16_two _ _ _ _ (chunkLane_lt _ _ _) (chunkLane_lt _ _ _) (chunkLane_lt _ _ _)
    · show u16lane (shuffleAt sp addr ((addr ^^^ 2) + 1)) 3 = u16lane (sp ((addr ^^^ 6) + 1)) 1
      rw [shuffleAt_w2]
      exact u16lane_packU16_three _ _ _ _ (chunkLane_lt _ _ _) (chunkLane_lt _ _ _) (chunkLane_lt _ _ _) (chunkLane_lt _ _ _)
    · show u16lane (shuffleAt sp addr (addr ^^^ 4)) 0 = u16lane (sp (addr ^^^ 2)) 2
      rw [shuffleAt_w3]
      exact u16lane_packU16_zero _ _ _ _ (chunkLane_lt _ _ _)
    · show u16lane (shuffleAt sp addr (addr ^^^ 4)) 1 = u16lane (sp ((addr ^^^ 2) + 1)) 1
      rw [shuffleAt_w3]
      exact u16lane_packU16_one _ _ _ _ (chunkLane_lt _ _ _) (chunkLane_lt _ _ _)
    · show u16lane (shuffleAt sp addr (addr ^^^ 4)) 2 = u16lane (sp (addr ^^^ 2)) 3
      rw [shuffleAt_w3]
      exact u16lane_packU16_two _ _ _ _ (chunkLane_lt _ _ _) (chunkLane_lt _ _ _) (chunkLane_lt _ _ _)
    · show u16lane (shuffleAt sp addr (addr ^^^ 4)) 3 = u16lane (sp ((addr ^^^ 2) + 1)) 0
      rw [shuffleAt_w3]
      exact u16lane_packU16_three _ _ _ _ (chunkLane_lt _ _ _) (chunkLane_lt _ _ _) (chunkLane_lt _ _ _) (chunkLane_lt _ _ _)
    · show u16lane (shuffleAt sp addr ((addr ^^^ 4) + 1)) 0 = u16lane (sp ((addr ^^^ 2) + 1)) 2
      rw [shuffleAt_w4]
      exact u16lane_packU16_zero _ _ _ _ (chunkLane_lt _ _ _)
    · show u16lane (shuffleAt sp addr ((addr ^^^ 4) + 1)) 1 = u16lane (sp ((addr ^^^ 2) + 1)) 3
      rw [shuffleAt_w4]
      exact u16lane_packU16_one _ _ _ _ (chunkLane_lt _ _ _) (chunkLane_lt _ _ _)
    · show u16lane (shuffleAt sp addr ((addr ^^^ 4) + 1)) 2 = u16lane (sp (addr ^^^ 2)) 0
      rw [shuffleAt_w4]
      exact u16lane_packU16_two _ _ _ _ (chunkLane_lt _ _ _) (chunkLane_lt _ _ _) (chunkLane_lt _ _ _)
    · show u16lane (shuffleAt sp addr ((addr ^^^ 4) + 1)) 3 = u16lane (sp (addr ^^^ 2)) 1
      rw [shuffleAt_w4]
      exact u16lane_packU16_three _ _ _ _ (chunkLane_lt _ _ _) (chunkLane_lt _ _ _) (chunkLane_lt _ _ _) (chunkLane_lt _ _ _)
    · show u16lane (shuffleAt sp addr (addr ^^^ 6)) 0 = u16lane (sp (addr ^^^ 4)) 1
      rw [shuffleAt_w5]
      exact u16lane_packU16_zero _ _ _ _ (chunkLane_lt _ _ _)
    · show u16lane (shuffleAt sp addr (addr ^^^ 6)) 1 = u16lane (sp ((addr ^^^ 4) + 1)) 1
      rw [shuffleAt_w5]
      exact u16lane_packU16_one _ _ _ _ (chunkLane_lt _ _ _) (chunkLane_lt _ _ _)
    · show u16lane (shuffleAt sp addr (addr ^^^ 6)) 2 = u16lane (sp (addr ^^^ 4)) 0
      rw [shuffleAt_w5]
      exact u16lane_packU16_two _ _ _ _ (chunkLane_lt _ _ _) (chunkLane_lt _ _ _) (chunkLane_lt _ _ _)
    · show u16lane (shuffleAt sp addr (addr ^^^ 6)) 3 = u16lane (sp ((addr ^^^ 4) + 1)) 0
      rw [shuffleAt_w5]
      exact u16lane_packU16_three _ _ _ _ (chunkLane_lt _ _ _) (chunkLane_lt _ _ _) (chunkLane_lt _ _ _) (chunkLane_lt _ _ _)
    · show u16lane (shuffleAt sp addr ((addr ^^^ 6) + 1)) 0 = u16lane (sp (addr ^^^ 4)) 2
      rw [shuffleAt_w6]
      exact u16lane_packU16_zero _ _ _ _ (chunkLane_lt _ _ _)
    · show u16lane (shuffleAt sp addr ((addr ^^^ 6) + 1)) 1 = u16lane (sp (addr ^^^ 4)) 3
      rw [shuffleAt_w6]
      exact u16lane_packU16_one _ _ _ _ (chunkLane_lt _ _ _) (chunkLane_lt _ _ _)
    · show u16lane (shuffleAt sp addr ((addr ^^^ 6) + 1)) 2 = u16lane (sp ((addr ^^^ 4) + 1)) 2
      rw [shuffleAt_w6]
      exact u16lane_packU16_two _ _ _ _ (chunkLane_lt _ _ _) (chunkLane_lt _ _ _) (chunkLane_lt _ _ _)
    · show u16lane (shuffleAt sp addr ((addr ^^^ 6) + 1)) 3 = u16lane (sp ((addr ^^^ 4) + 1)) 3
      rw [shuffleAt_w6]
      exact u16lane_packU16_three _ _ _ _ (chunkLane_lt _ _ _) (chunkLane_lt _ _ _) (chunkLane_lt _ _ _) (chunkLane_lt _ _ _)
  · decide

end CryptoNight

namespace CryptoNight

section Addressing

lemma masked_le (v : Nat) : v &&& 0x1ffff0 ≤ 0x1ffff0 := Nat.and_le_right

lemma masked_mod_sixteen (v : Nat) : (v &&& 0x1ffff0) % 16 = 0 := by
  have h : (v &&& 0x1ffff0) &&& 15 = v &&& (0x1ffff0 &&& 15) :=
    Nat.and_assoc v 0x1ffff0 15
  have h2 : (0x1ffff0 : Nat) &&& 15 = 0 := by decide
  have h3 : (v &&& 0x1ffff0) &&& 15 = (v &&& 0x1ffff0) % 16 := by
    have := Nat.and_pow_two_sub_one_eq_mod (v &&& 0x1ffff0) 4
    norm_num at this
    exact this
  rw [h3] at h
  rw [h2, Nat.and_zero] at h
  exact h

lemma toAddr_eq_div (v : Nat) : toAddr v = (v &&& 0x1ffff0) / 8 := by
  unfold toAddr
  rw [Nat.shiftRight_eq_div_pow]

lemma cellIdx_eq_div (v : Nat) : cellIdx v = (v &&& 0x1ffff0) / 16 := by
  unfold cellIdx
  rw [Nat.shiftRight_eq_div_pow]

lemma toAddr_le (v : Nat) : toAddr v ≤ 262142 := by
  rw [toAddr_eq_div]
  have h := masked_le v
  have h2 := masked_mod_sixteen v
  omega

lemma toAddr_even (v : Nat) : toAddr v % 2 = 0 := by
  rw [toAddr_eq_div]
  have h2 := masked_mod_sixteen v
  omega

lemma toAddr_add_one_lt (v : Nat) : toAddr v + 1 < spWords := by
  have := toAddr_le v
  unfold spWords
  omega

lemma toAddr_lt (v : Nat) : toAddr v < spWords := by
  have := toAddr_le v
  unfold spWords
  omega

end Addressing

/-- C4: for every 64-bit value `v0` used for addressing in the memory-hard
loop, the derived cell index `(v0 & 0x1FFFF0) >> 4` lies in `[0, 131072)`;
equivalently the 64-bit-word index `(v0 & 0x1FFFF0) >> 3` is even, at most
`262142`, and equal to twice the cell index, so both words of the
addressed cell (`toAddr v0` and `toAddr v0 + 1`) are inside the
`262144`-word scratchpad.  The loop derives every scratchpad address it
touches this way (`TO_ADDR(a)` and `TO_ADDR(b)`). -/
theorem loop_addresses_in_bounds (v0 : Nat) :
    cellIdx v0 < 131072 ∧ toAddr v0 = 2 * cellIdx v0 ∧
    toAddr v0 % 2 = 0 ∧ toAddr v0 ≤ 262142 ∧ toAddr v0 + 1 < spWords := by
  have h := masked_le v0
  have h2 := masked_mod_sixteen v0
  refine ⟨?_, ?_, toAddr_even v0, toAddr_le v0, toAddr_add_one_lt v0⟩
  · rw [cellIdx_eq_div]
    omega
  · rw [cellIdx_eq_div, toAddr_eq_div]
    omega

/-- `divisor = b[0]&0xffffffff | 0x80000001` from the variant-2 arithmetic
step of the memory-hard loop. -/
def v2Divisor (b0 : Nat) : Nat := (b0 &&& 0xffffffff) ||| 0x80000001

/-- `divisionResult = (dividend/divisor)&0xffffffff | ((dividend % divisor) << 32)`
from the variant-2 arithmetic step. -/
def v2DivRes (dividend divisor : Nat) : Nat :=
  ((dividend / divisor) &&& 0xffffffff) ||| ((dividend % divisor) <<< 32)

lemma le_or_right (x c : Nat) : c ≤ x ||| c := by
  have h : (x ||| c) &&& c = c := by
    apply Nat.eq_of_testBit_eq
    intro i
    simp only [Nat.testBit_and, Nat.testBit_or]
    cases hc : c.testBit i <;> simp [hc]
  calc c = (x ||| c) &&& c := h.symm
    _ ≤ x ||| c := Nat.and_le_left

/-- C10: in the variant-2 arithmetic step, the divisor
`(b[0] & 0xffffffff) | 0x80000001` is at least `0x80000001`, hence nonzero,
so the 64-bit division and modulo never divide by zero. -/
theorem variant2_divisor_nonzero (b0 : Nat) :
    0x80000001 ≤ v2Divisor b0 ∧ v2Divisor b0 ≠ 0 := by
  have h : (0x80000001 : Nat) ≤ v2Divisor b0 := le_or_right _ _
  exact ⟨h, by omega⟩

/-- The all-ones 64-bit word; `^t` in Go on a `uint64` is `t ^^^ mask64`. -/
def mask64 : Nat := 2 ^ 64 - 1

/-- The variant-1 tweak scalar
`t' = ((^t)&1)<<4 | (((^t)&1)<<4&t)<<1 | (t&32)>>1` (Go precedence: `<<`
and `&` associate left-to-right at the same level, then `|`). -/
def v1t (t : Nat) : Nat :=
  (((t ^^^ mask64) &&& 1) <<< 4) |||
    (((((t ^^^ mask64) &&& 1) <<< 4) &&& t) <<< 1) ||| ((t &&& 32) >>> 1)

/-- The variant-1 write-side tweak on the high 64-bit word of a cell:
`t = hi >> 24; hi ^= v1t t << 24`. -/
def v1TweakHi (hi : Nat) : Nat := hi ^^^ (v1t (hi >>> 24) <<< 24)

/-- The variant-1 tweak step on the scratchpad: applied to the cell at
word address `addr` just after `b ^ c` was written there; it rewrites
only the high word `addr + 1`. -/
def v1Tweak (sp : Nat → Nat) (addr : Nat) : Nat → Nat := fun j =>
  if j = addr + 1 then v1TweakHi (sp (addr + 1)) else sp j

/-- C3: In variant 1, after writing `b ^ c` into the cell at the first
address, the implementation takes `t = (high word) >> 24`, computes
`t' = (((~t) & 1) << 4) | ((((~t) & 1) << 4) & t) << 1 | (t & 32) >> 1`
and XORs `t' << 24` into the cell's high 64-bit word; the low word of the
cell and every other scratchpad word are unmodified by this step. -/
theorem variant1_tweak_spec (sp : Nat → Nat) (addr : Nat) :
    (v1Tweak sp addr (addr + 1) =
      sp (addr + 1) ^^^
        (((((sp (addr + 1) >>> 24) ^^^ mask64) &&& 1) <<< 4 |||
          ((((((sp (addr + 1) >>> 24) ^^^ mask64) &&& 1) <<< 4) &&&
            (sp (addr + 1) >>> 24)) <<< 1) |||
          (((sp (addr + 1) >>> 24) &&& 32) >>> 1)) <<< 24)) ∧
    v1Tweak sp addr addr = sp addr ∧
    (∀ j : Nat, j = addr + 1 ∨ v1Tweak sp addr j = sp j) := by
  refine ⟨?_, ?_, ?_⟩
  · unfold v1Tweak
    rw [if_pos rfl]
    rfl
  · unfold v1Tweak
    rw [if_neg (by omega)]
  · intro j
    by_cases hj : j = addr + 1
    · exact Or.inl hj
    · exact Or.inr (by unfold v1Tweak; rw [if_neg hj])

end CryptoNight

namespace CryptoNight

/-- A 32-byte digest, as returned by each finalist hasher. -/
def Digest : Type := {l : List Nat // l.length = 32}

/-- Modelled from the spec: the sub-algorithm implementations that are not
part of the embedded source file.  `keccakAbsorb` is
`sha3.Keccak1600State` — per the spec it fully overwrites the 25-lane
state as a function of the input bytes alone; `keccakPermute` is
`sha3.Keccak1600Permute`; `cnExpandKey`, `cnRounds` and `cnSingleRound`
are the CryptoNight-AES bodies behind the declarations in
`internal/aes/cn.go` (`cnExpandKey` maps a 256-bit key, four 64-bit
words, to 40 32-bit round-key words; `cnRounds` and `cnSingleRound` map
a 128-bit block, with round keys resp. a 128-bit key, to a 128-bit
block); `sqrtU64` is `uint64(math.Sqrt(float64(·)))`; and `blake`,
`groestl`, `jh`, `skein` are the four external finalist hashers, each a
black box consuming a byte string and producing a 32-byte digest. -/
structure Primitives where
  keccakAbsorb : List Nat → Nat → Nat
  keccakPermute : (Nat → Nat) → Nat → Nat
  cnExpandKey : Nat × Nat × Nat × Nat → Nat → Nat
  cnRounds : Nat × Nat → (Nat → Nat) → Nat × Nat
  cnSingleRound : Nat × Nat → Nat × Nat → Nat × Nat
  sqrtU64 : Nat → Nat
  blake : List Nat → Digest
  groestl : List Nat → Digest
  jh : List Nat → Digest
  skein : List Nat → Digest

/-- Modelled from the spec: `byteMul` (defined in the repository outside
the embedded file) is the standard unsigned 64×64→128 widening multiply;
`product[0]` holds the high 64 bits and `product[1]` the low 64 bits
(hence the spec's lane-cross at the byteAdd step: product high is added
to `a[0]`, product low to `a[1]`). -/
def byteMul (x y : Nat) : Nat × Nat := (x * y / 2 ^ 64, x * y % 2 ^ 64)

/-- The reusable 2 MiB working buffer: 25-lane Keccak state plus
262,144-word scratchpad. -/
structure Cache where
  finalState : Nat → Nat
  scratchpad : Nat → Nat

/-- The zero value of `Cache` (`new(Cache)`). -/
def zeroCache : Cache := ⟨fun _ => 0, fun _ => 0⟩

/-- Write word `v` at index `i` of the scratchpad. -/
def wupdate (sp : Nat → Nat) (i v : Nat) : Nat → Nat := fun j =>
  if j = i then v else sp j

/-- The per-iteration mutable state of the memory-hard loop: scratchpad,
the 128-bit accumulators `a` and `b`, and the variant-2 scalars. -/
structure LoopState where
  sp : Nat → Nat
  a0 : Nat
  a1 : Nat
  b0 : Nat
  b1 : Nat
  divRes : Nat
  sqrtRes : Nat

/-- The variant-2 shuffle, applied only when `variant = 2`. -/
def shuffleIf (variant : Int) (sp : Nat → Nat) (addr : Nat) :
    Nat → Nat :=
  if variant = 2 then shuffleAt sp addr else sp

/-- The variant-1 write-side tweak, applied only when `variant = 1`. -/
def v1TweakIf (variant : Int) (sp : Nat → Nat) (addr : Nat) :
    Nat → Nat :=
  if variant = 1 then v1Tweak sp addr else sp

/-- `scratchpad[addr+1] ^= tweak` (source line 224), applied only when
`variant = 1`. -/
def tweakXorIf (variant : Int) (tweak : Nat) (sp : Nat → Nat)
    (addr : Nat) : Nat → Nat :=
  if variant = 1 then wupdate sp (addr + 1) (sp (addr + 1) ^^^ tweak)
  else sp

/-- The scratchpad after the first half of a loop iteration (source
lines 179–194): variant-2 shuffle at `addr = TO_ADDR(a)`, write `b ^ c`
into the cell at `addr`, variant-1 tweak on the just-written high word. -/
def writeSp (P : Primitives) (variant : Int) (st : LoopState) :
    Nat → Nat :=
  v1TweakIf variant
    (wupdate
      (wupdate (shuffleIf variant st.sp (toAddr st.a0)) (toAddr st.a0)
        (st.b0 ^^^
          (P.cnSingleRound (st.sp (toAddr st.a0), st.sp (toAddr st.a0 + 1))
            (st.a0, st.a1)).1))
      (toAddr st.a0 + 1)
      (st.b1 ^^^
        (P.cnSingleRound (st.sp (toAddr st.a0), st.sp (toAddr st.a0 + 1))
          (st.a0, st.a1)).2))
    (toAddr st.a0)

/-- First half of a loop iteration (source lines 179–194):
`addr = TO_ADDR(a)`; `c = CnSingleRound(scratchpad[addr], a)`; variant-2
shuffle at `addr`; write `b ^ c` into the cell; `b = c`; variant-1 tweak
on the just-written high word. -/
def writePhase (P : Primitives) (variant : Int) (st : LoopState) :
    LoopState :=
  let c := P.cnSingleRound
    (st.sp (toAddr st.a0), st.sp (toAddr st.a0 + 1)) (st.a0, st.a1)
  { st with sp := writeSp P variant st, b0 := c.1, b1 := c.2 }

/-- The scratchpad after the second half of a loop iteration (source
lines 196–225): variant-2 shuffle at `addr = TO_ADDR(b)`, write the
updated `a` into the cell at `addr`, variant-1 tweak XOR on the written
high word. -/
def mixSp (P : Primitives) (variant : Int) (tweak : Nat)
    (st : LoopState) : Nat → Nat :=
  tweakXorIf variant tweak
    (wupdate
      (wupdate (shuffleIf variant st.sp (toAddr st.b0)) (toAddr st.b0)
        ((st.a0 + (byteMul st.b0 (st.sp (toAddr st.b0))).1) % 2 ^ 64))
      (toAddr st.b0 + 1)
      ((st.a1 + (byteMul st.b0 (st.sp (toAddr st.b0))).2) % 2 ^ 64))
    (toAddr st.b0)

/-- The updated `divisionResult` of the variant-2 arithmetic step
(`dividend = b[1]`, `divisor` drawn from `b[0]`). -/
def mixDivRes (variant : Int) (st : LoopState) : Nat :=
  if variant = 2 then v2DivRes st.b1 (v2Divisor st.b0) else st.divRes

/-- The updated `sqrtResult` of the variant-2 arithmetic step:
`sqrt((b[0] + divisionResult) >> 16)` with wrapping 64-bit addition,
using the freshly computed `divisionResult`. -/
def mixSqrtRes (P : Primitives) (variant : Int) (st : LoopState) : Nat :=
  if variant = 2 then
    P.sqrtU64 (((st.b0 + mixDivRes variant st) % 2 ^ 64) >>> 16)
  else st.sqrtRes

/-- Second half of a loop iteration (source lines 196–225), entered with
`b` already holding `c`: `addr = TO_ADDR(b)`; read `c` from the cell;
variant-2 division/sqrt update; `byteMul(product, b[0], c[0])`; variant-2
shuffle at the second address; `a += product` (wrapping, lane-crossed);
write `a` into the cell; `a ^= c`; variant-1 tweak XOR on the written
high word. -/
def mixPhase (P : Primitives) (variant : Int) (tweak : Nat)
    (st : LoopState) : LoopState :=
  let addr := toAddr st.b0
  let r0 := st.sp addr
  let r1 := st.sp (addr + 1)
  let r1v := if variant = 2 then r1 ^^^ (st.divRes ^^^ st.sqrtRes) else r1
  let product := byteMul st.b0 r0
  { sp := mixSp P variant tweak st,
    a0 := ((st.a0 + product.1) % 2 ^ 64) ^^^ r0,
    a1 := ((st.a1 + product.2) % 2 ^ 64) ^^^ r1v,
    b0 := st.b0, b1 := st.b1,
    divRes := mixDivRes variant st, sqrtRes := mixSqrtRes P variant st }

/-- One full iteration of the memory-hard loop. -/
def step (P : Primitives) (variant : Int) (tweak : Nat)
    (st : LoopState) : LoopState :=
  mixPhase P variant tweak (writePhase P variant st)

/-- `n` iterations of the memory-hard loop. -/
def loopAux (P : Primitives) (variant : Int) (tweak : Nat) :
    Nat → LoopState → LoopState
  | 0, st => st
  | n + 1, st => step P variant tweak (loopAux P variant tweak n st)

/-- One pass of `for j := 0; j < 16; j += 2 do CnRounds(blocks[j:], blocks[j:], rkeys)`:
the ten AES rounds applied in place to each of the eight 128-bit
sub-blocks of the 128-byte blocks buffer. -/
def aesBlocks (P : Primitives) (rkeys : Nat → Nat) (bl : Nat → Nat) :
    Nat → Nat := fun j =>
  let p := P.cnRounds (bl (2 * (j / 2)), bl (2 * (j / 2) + 1)) rkeys
  if j % 2 = 0 then p.1 else p.2

/-- One iteration of the scratchpad-init loop (source lines 161–166) for
chunk `k`: transform the blocks buffer, then copy its 16 words into
scratchpad words `16k .. 16k+15`. -/
def initChunk (P : Primitives) (rkeys : Nat → Nat) (k : Nat)
    (st : (Nat → Nat) × (Nat → Nat)) : (Nat → Nat) × (Nat → Nat) :=
  let bl2 := aesBlocks P rkeys st.2
  (fun i => if 16 * k ≤ i ∧ i < 16 * k + 16 then bl2 (i - 16 * k) else st.1 i,
   bl2)

/-- The first `n` chunks of the scratchpad-init loop. -/
def initAux (P : Primitives) (rkeys : Nat → Nat) :
    Nat → (Nat → Nat) × (Nat → Nat) → (Nat → Nat) × (Nat → Nat)
  | 0, st => st
  | n + 1, st => initChunk P rkeys n (initAux P rkeys n st)

/-- One iteration of the finalization loop (source lines 233–240) for
chunk `k`: XOR the blocks buffer into scratchpad words `16k .. 16k+15`
pairwise, apply the ten AES rounds in place to each resulting 128-bit
sub-block, then let the blocks buffer alias the just-processed chunk. -/
def finChunk (P : Primitives) (rkeys : Nat → Nat) (k : Nat)
    (st : (Nat → Nat) × (Nat → Nat)) : (Nat → Nat) × (Nat → Nat) :=
  let newsp : Nat → Nat := fun i =>
    if 16 * k ≤ i ∧ i < 16 * k + 16 then
      let r := i - 16 * k
      let p := P.cnRounds
        (st.1 (16 * k + 2 * (r / 2)) ^^^ st.2 (2 * (r / 2)),
         st.1 (16 * k + 2 * (r / 2) + 1) ^^^ st.2 (2 * (r / 2) + 1)) rkeys
      if r % 2 = 0 then p.1 else p.2
    else st.1 i
  (newsp, fun j => newsp (16 * k + j))

/-- The first `n` chunks of the finalization loop. -/
def finAux (P : Primitives) (rkeys : Nat → Nat) :
    Nat → (Nat → Nat) × (Nat → Nat) → (Nat → Nat) × (Nat → Nat)
  | 0, st => st
  | n + 1, st => finChunk P rkeys n (finAux P rkeys n st)

/-- The 200-byte little-endian serialization of the 25-lane Keccak state
(`U64_U8(cache.finalState, 0, 25)`). -/
def stateBytes (fs : Nat → Nat) : List Nat :=
  (List.range 200).map fun i => fs (i / 8) / 2 ^ (8 * (i % 8)) % 256

/-- The final-hash dispatch on the two low bits of the first state lane
(source lines 248–259): 0 → BLAKE-256, 1 → Groestl-256, 2 → JH-256,
3 → Skein-256, fed the 200-byte serialized state. -/
def finalHashDispatch (P : Primitives) (fs : Nat → Nat) : Digest :=
  match fs 0 &&& 3 with
  | 0 => P.blake (stateBytes fs)
  | 1 => P.groestl (stateBytes fs)
  | 2 => P.jh (stateBytes fs)
  | _ => P.skein (stateBytes fs)

/-- The scratchpad after the init loop: round keys from state lanes 0–3,
blocks buffer seeded from lanes 8–23, 16384 chunks written. -/
def initialScratch (P : Primitives) (c : Cache) (fs : Nat → Nat) :
    Nat → Nat :=
  (initAux P (P.cnExpandKey (fs 0, fs 1, fs 2, fs 3)) 16384
    (c.scratchpad, fun j => fs (8 + j))).1

/-- The loop state after the 524,288 iterations of the memory-hard loop,
started from `a = fs[0..2] ^ fs[4..6]`, `b = fs[2..4] ^ fs[6..8]`,
`divisionResult = sqrtResult = 0`. -/
def loopResult (P : Primitives) (c : Cache) (fs : Nat → Nat)
    (tweak : Nat) (variant : Int) : LoopState :=
  loopAux P variant tweak 524288
    ⟨initialScratch P c fs, fs 0 ^^^ fs 4, fs 1 ^^^ fs 5,
     fs 2 ^^^ fs 6, fs 3 ^^^ fs 7, 0, 0⟩

/-- Scratchpad and blocks buffer after the finalization loop: second key
schedule from lanes 4–7, blocks re-seeded from lanes 8–23. -/
def finalResult (P : Primitives) (c : Cache) (fs : Nat → Nat)
    (tweak : Nat) (variant : Int) : (Nat → Nat) × (Nat → Nat) :=
  finAux P (P.cnExpandKey (fs 4, fs 5, fs 6, fs 7)) 16384
    ((loopResult P c fs tweak variant).sp, fun j => fs (8 + j))

/-- The 25-lane state fed to the finalist hasher: lanes 8–23 replaced by
the final blocks buffer, then one Keccak-f[1600] permutation. -/
def postState (P : Primitives) (c : Cache) (fs : Nat → Nat)
    (tweak : Nat) (variant : Int) : Nat → Nat :=
  P.keccakPermute fun i =>
    if 8 ≤ i ∧ i < 24 then (finalResult P c fs tweak variant).2 (i - 8)
    else fs i

/-- Everything `Cache.Sum` does after the Keccak absorb and the tweak
initialization; returns the mutated cache and the digest. -/
def sumBody (P : Primitives) (c : Cache) (fs : Nat → Nat) (tweak : Nat)
    (variant : Int) : Cache × Digest :=
  (⟨postState P c fs tweak variant, (finalResult P c fs tweak variant).1⟩,
   finalHashDispatch P (postState P c fs tweak variant))

/-- `binary.LittleEndian.Uint64(data[35:43])`. -/
def leU64at35 (d : List Nat) : Nat :=
  d.getD 35 0 + d.getD 36 0 * 2 ^ 8 + d.getD 37 0 * 2 ^ 16 +
    d.getD 38 0 * 2 ^ 24 + d.getD 39 0 * 2 ^ 32 + d.getD 40 0 * 2 ^ 40 +
    d.getD 41 0 * 2 ^ 48 + d.getD 42 0 * 2 ^ 56

/-- `(*Cache) Sum(data, variant)`.  The Keccak absorb overwrites the
state; for variant 1 the tweak is drawn from `data[35:43]`, which in Go
panics (a caller-visible bounds failure, modelled as `none`) when
`len(data) < 43`; no other variant value is inspected anywhere. -/
def CacheSum (P : Primitives) (c : Cache) (data : List Nat)
    (variant : Int) : Cache × Option Digest :=
  let fs := P.keccakAbsorb data
  if variant = 1 then
    if 43 ≤ data.length then
      let r := sumBody P c fs (fs 24 ^^^ leU64at35 data) 1
      (r.1, some r.2)
    else (⟨fs, c.scratchpad⟩, none)
  else
    let r := sumBody P c fs 0 variant
    (r.1, some r.2)

/-- Package-level `Sum(data, variant) = new(Cache).Sum(data, variant)`. -/
def Sum (P : Primitives) (data : List Nat) (variant : Int) :
    Cache × Option Digest :=
  CacheSum P zeroCache data variant

/-- A concrete instantiation of the abstract primitives, used to
evaluate the embedding at closed inputs. -/
def constPrims : Primitives :=
  ⟨fun _ _ => 0, fun _ _ => 0, fun _ _ => 0, fun _ _ => (0, 0),
   fun _ _ => (0, 0), fun _ => 0,
   fun _ => ⟨List.replicate 32 0, by simp⟩,
   fun _ => ⟨List.replicate 32 1, by simp⟩,
   fun _ => ⟨List.replicate 32 2, by simp⟩,
   fun _ => ⟨List.replicate 32 3, by simp⟩⟩

end CryptoNight

namespace CryptoNight

section VariantDispatch

lemma writePhase_variant0 (P : Primitives) {v : Int} (h1 : v ≠ 1)
    (h2 : v ≠ 2) : writePhase P v = writePhase P 0 := by
  funext st
  unfold writePhase writeSp v1TweakIf shuffleIf
  simp [h1, h2]

lemma mixPhase_variant0 (P : Primitives) {v : Int} (tw : Nat) (h1 : v ≠ 1)
    (h2 : v ≠ 2) : mixPhase P v tw = mixPhase P 0 tw := by
  funext st
  unfold mixPhase mixSp mixDivRes mixSqrtRes tweakXorIf shuffleIf
  simp [h1, h2]

lemma step_variant0 (P : Primitives) {v : Int} (tw : Nat) (h1 : v ≠ 1)
    (h2 : v ≠ 2) : step P v tw = step P 0 tw := by
  funext st
  unfold step
  rw [writePhase_variant0 P h1 h2, mixPhase_variant0 P tw h1 h2]

lemma loopAux_variant0 (P : Primitives) {v : Int} (tw : Nat) (h1 : v ≠ 1)
    (h2 : v ≠ 2) : ∀ n, loopAux P v tw n = loopAux P 0 tw n := by
  intro n
  induction n with
  | zero => rfl
  | succ n ih =>
    funext st
    simp only [loopAux, ih, step_variant0 P tw h1 h2]

lemma loopResult_variant0 (P : Primitives) (c : Cache) (fs : Nat → Nat)
    {v : Int} (tw : Nat) (h1 : v ≠ 1) (h2 : v ≠ 2) :
    loopResult P c fs tw v = loopResult P c fs tw 0 := by
  unfold loopResult
  rw [loopAux_variant0 P tw h1 h2]

lemma finalResult_variant0 (P : Primitives) (c : Cache) (fs : Nat → Nat)
    {v : Int} (tw : Nat) (h1 : v ≠ 1) (h2 : v ≠ 2) :
    finalResult P c fs tw v = finalResult P c fs tw 0 := by
  unfold finalResult
  rw [loopResult_variant0 P c fs tw h1 h2]

lemma postState_variant0 (P : Primitives) (c : Cache) (fs : Nat → Nat)
    {v : Int} (tw : Nat) (h1 : v ≠ 1) (h2 : v ≠ 2) :
    postState P c fs tw v = postState P c fs tw 0 := by
  unfold postState
  rw [finalResult_variant0 P c fs tw h1 h2]

lemma sumBody_variant0 (P : Primitives) (c : Cache) (fs : Nat → Nat)
    {v : Int} (tw : Nat) (h1 : v ≠ 1) (h2 : v ≠ 2) :
    sumBody P c fs tw v = sumBody P c fs tw 0 := by
  unfold sumBody
  rw [postState_variant0 P c fs tw h1 h2, finalResult_variant0 P c fs tw h1 h2]

end VariantDispatch

/-- C9: for every variant value other than 1 and 2 (including negative
values and values greater than 2), `Cache.Sum` performs no variant
validation and computes exactly the variant-0 algorithm, returning a
digest (no failure). -/
theorem sum_ignores_unknown_variants (P : Primitives) (c : Cache)
    (data : List Nat) (variant : Int) (h1 : variant ≠ 1)
    (h2 : variant ≠ 2) :
    CacheSum P c data variant = CacheSum P c data 0 ∧
    (CacheSum P c data variant).2.isSome = true := by
  unfold CacheSum
  rw [if_neg h1, if_neg (by decide : (0 : Int) ≠ 1)]
  rw [sumBody_variant0 P c _ _ h1 h2]
  exact ⟨rfl, rfl⟩

/-- Witness for C9 at the concrete variant `-1`. -/
theorem sum_ignores_unknown_variants_w :
    CacheSum constPrims zeroCache [] (-1) = CacheSum constPrims zeroCache [] 0 ∧
    (CacheSum constPrims zeroCache [] (-1)).2.isSome = true :=
  sum_ignores_unknown_variants constPrims zeroCache [] (-1) (by decide)
    (by decide)

/-- C6 counterexample: at the concrete invalid variant `3` (outside
`{0,1,2}`) and empty input, `Sum` returns a digest (`isSome`) instead of
surfacing a caller-visible failure, so the claim is false as stated. -/
theorem invalid_variant_counterexample :
    (Sum constPrims [] 3).2.isSome = true := by
  simp [Sum, CacheSum]

/-- C6 (amended): for every variant outside `{0, 1, 2}` and every input,
`Cache.Sum` performs no validation and returns — with no caller-visible
failure — the 32-byte digest computed by the variant-0 algorithm. -/
theorem invalid_variant_no_failure (P : Primitives) (c : Cache)
    (data : List Nat) (variant : Int) (_h0 : variant ≠ 0) (h1 : variant ≠ 1)
    (h2 : variant ≠ 2) :
    (CacheSum P c data variant).2.isSome = true ∧
    CacheSum P c data variant = CacheSum P c data 0 ∧
    ∀ d : Digest, (CacheSum P c data variant).2 = some d →
      d.1.length = 32 := by
  refine ⟨?_, ?_, fun d _ => d.2⟩
  · unfold CacheSum
    rw [if_neg h1]
    rfl
  · unfold CacheSum
    rw [if_neg h1, if_neg (by decide : (0 : Int) ≠ 1)]
    rw [sumBody_variant0 P c _ _ h1 h2]

/-- Witness for the amended C6 at the concrete variant `7`. -/
theorem invalid_variant_no_failure_w :
    (CacheSum constPrims zeroCache [] 7).2.isSome = true ∧
    CacheSum constPrims zeroCache [] 7 = CacheSum constPrims zeroCache [] 0 ∧
    ∀ d : Digest, (CacheSum constPrims zeroCache [] 7).2 = some d →
      d.1.length = 32 :=
  invalid_variant_no_failure constPrims zeroCache [] 7 (by decide) (by decide)
    (by decide)

/-- C7: for variant 1 with `len(data) < 43`, `Cache.Sum` surfaces a
caller-visible failure (the Go bounds panic on `data[35:43]`, modelled as
`none`) and never returns a partial digest; with `len(data) ≥ 43` no
failure occurs and the computation proceeds with
`tweak = finalState[24] ^ LE_u64(data[35..43])`. -/
theorem variant1_length_precondition (P : Primitives) (c : Cache)
    (data : List Nat) :
    ((CacheSum P c data 1).2 = none ↔ data.length < 43) ∧
    (43 ≤ data.length →
      CacheSum P c data 1 =
        ((sumBody P c (P.keccakAbsorb data)
            (P.keccakAbsorb data 24 ^^^ leU64at35 data) 1).1,
          some (sumBody P c (P.keccakAbsorb data)
            (P.keccakAbsorb data 24 ^^^ leU64at35 data) 1).2)) := by
  constructor
  · by_cases h : 43 ≤ data.length
    · simp [CacheSum, h]
    · simp [CacheSum, h]
      omega
  · intro h
    simp [CacheSum, h]

/-- Witness for C7 at a concrete 43-byte input and at a short input. -/
theorem variant1_length_precondition_w :
    ((CacheSum constPrims zeroCache (List.replicate 43 0) 1).2 = none ↔
      (List.replicate 43 0).length < 43) ∧
    CacheSum constPrims zeroCache (List.replicate 43 0) 1 =
      ((sumBody constPrims zeroCache
          (constPrims.keccakAbsorb (List.replicate 43 0))
          (constPrims.keccakAbsorb (List.replicate 43 0) 24 ^^^
            leU64at35 (List.replicate 43 0)) 1).1,
        some (sumBody constPrims zeroCache
          (constPrims.keccakAbsorb (List.replicate 43 0))
          (constPrims.keccakAbsorb (List.replicate 43 0) 24 ^^^
            leU64at35 (List.replicate 43 0)) 1).2) :=
  ⟨(variant1_length_precondition constPrims zeroCache
      (List.replicate 43 0)).1,
    (variant1_length_precondition constPrims zeroCache
      (List.replicate 43 0)).2 (by simp)⟩

/-- C8: for every call, after finalization the digest is obtained by
dispatching on `finalState[0] & 0x03` — 0 selects BLAKE-256, 1 selects
Groestl-256, 2 selects JH-256, 3 selects Skein-256 — feeding the full
200-byte little-endian serialization of the 25-lane Keccak state to the
selected hasher; the returned digest is exactly 32 bytes long. -/
theorem final_dispatch_spec (P : Primitives) (c : Cache) (fs : Nat → Nat)
    (tweak : Nat) (variant : Int) :
    ((sumBody P c fs tweak variant).2 =
      match postState P c fs tweak variant 0 &&& 3 with
      | 0 => P.blake (stateBytes (postState P c fs tweak variant))
      | 1 => P.groestl (stateBytes (postState P c fs tweak variant))
      | 2 => P.jh (stateBytes (postState P c fs tweak variant))
      | _ => P.skein (stateBytes (postState P c fs tweak variant))) ∧
    (stateBytes (postState P c fs tweak variant)).length = 200 ∧
    ((sumBody P c fs tweak variant).2).1.length = 32 := by
  refine ⟨rfl, by simp [stateBytes], (sumBody P c fs tweak variant).2.2⟩

end CryptoNight

namespace CryptoNight

section CacheIndependence

/-- Agreement of two scratchpads on the first `n` words. -/
def SpEq (n : Nat) (f g : Nat → Nat) : Prop := ∀ j, j < n → f j = g j

/-- Agreement of two blocks buffers on their 16 words. -/
def BlEq (f g : Nat → Nat) : Prop := ∀ j, j < 16 → f j = g j

/-- Agreement of two loop states: equal scalars, scratchpads agreeing on
the 262,144 words the loop can address. -/
def StEq (st st' : LoopState) : Prop :=
  st.a0 = st'.a0 ∧ st.a1 = st'.a1 ∧ st.b0 = st'.b0 ∧ st.b1 = st'.b1 ∧
  st.divRes = st'.divRes ∧ st.sqrtRes = st'.sqrtRes ∧
  SpEq spWords st.sp st'.sp

lemma spWords_val : spWords = 262144 := by decide

lemma spWords_two_pow : spWords = 2 ^ 18 := by decide

lemma xor_small_lt {a : Nat} (k : Nat) (ha : a < spWords) (hk : k < 8) :
    a ^^^ k < spWords := by
  rw [spWords_two_pow] at ha ⊢
  exact Nat.xor_lt_two_pow ha (by omega)

lemma xor_small_even {a : Nat} (k : Nat) (ha : a % 2 = 0)
    (hk : k % 2 = 0) : (a ^^^ k) % 2 = 0 := by
  rw [xor_mod_two a k hk]
  exact ha

lemma even_lt_succ_lt {b : Nat} (hb : b % 2 = 0) (hlt : b < spWords) :
    b + 1 < spWords := by
  rw [spWords_val] at hlt ⊢
  omega

lemma chunkLane_congr {N : Nat} {sp sp' : Nat → Nat}
    (hsp : SpEq N sp sp') {base : Nat} (hb : base + 1 < N) {j : Nat}
    (hj : j < 8) : chunkLane sp base j = chunkLane sp' base j := by
  unfold chunkLane
  rw [hsp (base + j / 4) (by omega)]

lemma shuffleAt_congr {sp sp' : Nat → Nat} (hsp : SpEq spWords sp sp')
    {a : Nat} (hae : a % 2 = 0) (halt : a < spWords) :
    SpEq spWords (shuffleAt sp a) (shuffleAt sp' a) := by
  have h2 : (a ^^^ 2) + 1 < spWords :=
    even_lt_succ_lt (xor_small_even 2 hae (by norm_num))
      (xor_small_lt 2 halt (by norm_num))
  have h4 : (a ^^^ 4) + 1 < spWords :=
    even_lt_succ_lt (xor_small_even 4 hae (by norm_num))
      (xor_small_lt 4 halt (by norm_num))
  have h6 : (a ^^^ 6) + 1 < spWords :=
    even_lt_succ_lt (xor_small_even 6 hae (by norm_num))
      (xor_small_lt 6 halt (by norm_num))
  intro j hj
  unfold shuffleAt
  dsimp only
  split_ifs with c1 c2 c3 c4 c5 c6
  · rw [chunkLane_congr hsp h6 (by norm_num),
      chunkLane_congr hsp h6 (by norm_num),
      chunkLane_congr hsp h6 (by norm_num),
      chunkLane_congr hsp h6 (by norm_num)]
  · rw [chunkLane_congr hsp h6 (by norm_num),
      chunkLane_congr hsp h6 (by norm_num),
      chunkLane_congr hsp h6 (by norm_num),
      chunkLane_congr hsp h6 (by norm_num)]
  · rw [chunkLane_congr hsp h2 (by norm_num),
      chunkLane_congr hsp h2 (by norm_num),
      chunkLane_congr hsp h2 (by norm_num),
      chunkLane_congr hsp h2 (by norm_num)]
  · rw [chunkLane_congr hsp h2 (by norm_num),
      chunkLane_congr hsp h2 (by norm_num),
      chunkLane_congr hsp h2 (by norm_num),
      chunkLane_congr hsp h2 (by norm_num)]
  · rw [chunkLane_congr hsp h4 (by norm_num),
      chunkLane_congr hsp h4 (by norm_num),
      chunkLane_congr hsp h4 (by norm_num),
      chunkLane_congr hsp h4 (by norm_num)]
  · rw [chunkLane_congr hsp h4 (by norm_num),
      chunkLane_congr hsp h4 (by norm_num),
      chunkLane_congr hsp h4 (by norm_num),
      chunkLane_congr hsp h4 (by norm_num)]
  · exact hsp j hj

lemma wupdate_congr {N : Nat} {sp sp' : Nat → Nat} (hsp : SpEq N sp sp')
    (i : Nat) {v v' : Nat} (hv : v = v') :
    SpEq N (wupdate sp i v) (wupdate sp' i v') := by
  intro j hj
  unfold wupdate
  split_ifs
  · exact hv
  · exact hsp j hj

lemma shuffleIf_congr (v : Int) {sp sp' : Nat → Nat}
    (hsp : SpEq spWords sp sp') {a : Nat} (hae : a % 2 = 0)
    (halt : a < spWords) :
    SpEq spWords (shuffleIf v sp a) (shuffleIf v sp' a) := by
  unfold shuffleIf
  split_ifs
  · exact shuffleAt_congr hsp hae halt
  · exact hsp

lemma v1TweakIf_congr (v : Int) {sp sp' : Nat → Nat}
    (hsp : SpEq spWords sp sp') {a : Nat} (ha : a + 1 < spWords) :
    SpEq spWords (v1TweakIf v sp a) (v1TweakIf v sp' a) := by
  unfold v1TweakIf
  split_ifs
  · intro j hj
    unfold v1Tweak
    split_ifs
    · rw [hsp (a + 1) ha]
    · exact hsp j hj
  · exact hsp

lemma tweakXorIf_congr (v : Int) (tw : Nat) {sp sp' : Nat → Nat}
    (hsp : SpEq spWords sp sp') {a : Nat} (ha : a + 1 < spWords) :
    SpEq spWords (tweakXorIf v tw sp a) (tweakXorIf v tw sp' a) := by
  unfold tweakXorIf
  split_ifs
  · exact wupdate_congr hsp (a + 1) (by rw [hsp (a + 1) ha])
  · exact hsp

lemma writeSp_congr (P : Primitives) (v : Int) {st st' : LoopState}
    (h : StEq st st') : SpEq spWords (writeSp P v st) (writeSp P v st') := by
  obtain ⟨ha0, ha1, hb0, hb1, hd, hq, hsp⟩ := h
  unfold writeSp
  rw [← ha0, ← ha1, ← hb0, ← hb1,
    ← hsp (toAddr st.a0) (toAddr_lt st.a0),
    ← hsp (toAddr st.a0 + 1) (toAddr_add_one_lt st.a0)]
  exact v1TweakIf_congr v
    (wupdate_congr
      (wupdate_congr (shuffleIf_congr v hsp (toAddr_even st.a0)
        (toAddr_lt st.a0)) (toAddr st.a0) rfl)
      (toAddr st.a0 + 1) rfl)
    (toAddr_add_one_lt st.a0)

lemma writePhase_congr (P : Primitives) (v : Int) {st st' : LoopState}
    (h : StEq st st') : StEq (writePhase P v st) (writePhase P v st') := by
  obtain ⟨ha0, ha1, hb0, hb1, hd, hq, hsp⟩ := h
  have hc : P.cnSingleRound
      (st.sp (toAddr st.a0), st.sp (toAddr st.a0 + 1)) (st.a0, st.a1) =
      P.cnSingleRound
        (st'.sp (toAddr st'.a0), st'.sp (toAddr st'.a0 + 1))
        (st'.a0, st'.a1) := by
    rw [← ha0, ← ha1, ← hsp (toAddr st.a0) (toAddr_lt st.a0),
      ← hsp (toAddr st.a0 + 1) (toAddr_add_one_lt st.a0)]
  exact ⟨ha0, ha1, congrArg Prod.fst hc, congrArg Prod.snd hc, hd, hq,
    writeSp_congr P v ⟨ha0, ha1, hb0, hb1, hd, hq, hsp⟩⟩

lemma mixSp_congr (P : Primitives) (v : Int) (tw : Nat)
    {st st' : LoopState} (h : StEq st st') :
    SpEq spWords (mixSp P v tw st) (mixSp P v tw st') := by
  obtain ⟨ha0, ha1, hb0, hb1, hd, hq, hsp⟩ := h
  unfold mixSp
  rw [← ha0, ← ha1, ← hb0, ← hsp (toAddr st.b0) (toAddr_lt st.b0)]
  exact tweakXorIf_congr v tw
    (wupdate_congr
      (wupdate_congr (shuffleIf_congr v hsp (toAddr_even st.b0)
        (toAddr_lt st.b0)) (toAddr st.b0) rfl)
      (toAddr st.b0 + 1) rfl)
    (toAddr_add_one_lt st.b0)

lemma mixPhase_congr (P : Primitives) (v : Int) (tw : Nat)
    {st st' : LoopState} (h : StEq st st') :
    StEq (mixPhase P v tw st) (mixPhase P v tw st') := by
  obtain ⟨ha0, ha1, hb0, hb1, hd, hq, hsp⟩ := h
  have hr0 : st.sp (toAddr st'.b0) = st'.sp (toAddr st'.b0) := by
    rw [← hb0]
    exact hsp (toAddr st.b0) (toAddr_lt st.b0)
  have hr1 : st.sp (toAddr st'.b0 + 1) = st'.sp (toAddr st'.b0 + 1) := by
    rw [← hb0]
    exact hsp (toAddr st.b0 + 1) (toAddr_add_one_lt st.b0)
  have hdiv : mixDivRes v st = mixDivRes v st' := by
    unfold mixDivRes
    rw [hb0, hb1, hd]
  refine ⟨?_, ?_, hb0, hb1, hdiv, ?_,
    mixSp_congr P v tw ⟨ha0, ha1, hb0, hb1, hd, hq, hsp⟩⟩
  · show ((st.a0 + (byteMul st.b0 (st.sp (toAddr st.b0))).1) % 2 ^ 64) ^^^
        st.sp (toAddr st.b0) =
      ((st'.a0 + (byteMul st'.b0 (st'.sp (toAddr st'.b0))).1) % 2 ^ 64) ^^^
        st'.sp (toAddr st'.b0)
    rw [ha0, hb0, hr0]
  · show ((st.a1 + (byteMul st.b0 (st.sp (toAddr st.b0))).2) % 2 ^ 64) ^^^
        (if v = 2 then
          st.sp (toAddr st.b0 + 1) ^^^ (st.divRes ^^^ st.sqrtRes)
        else st.sp (toAddr st.b0 + 1)) =
      ((st'.a1 + (byteMul st'.b0 (st'.sp (toAddr st'.b0))).2) % 2 ^ 64) ^^^
        (if v = 2 then
          st'.sp (toAddr st'.b0 + 1) ^^^ (st'.divRes ^^^ st'.sqrtRes)
        else st'.sp (toAddr st'.b0 + 1))
    rw [ha1, hb0, hr0, hr1, hd, hq]
  · show mixSqrtRes P v st = mixSqrtRes P v st'
    unfold mixSqrtRes
    rw [hb0, hdiv, hq]

lemma step_congr (P : Primitives) (v : Int) (tw : Nat)
    {st st' : LoopState} (h : StEq st st') :
    StEq (step P v tw st) (step P v tw st') :=
  mixPhase_congr P v tw (writePhase_congr P v h)

lemma loopAux_congr (P : Primitives) (v : Int) (tw : Nat) :
    ∀ n, ∀ {st st' : LoopState}, StEq st st' →
      StEq (loopAux P v tw n st) (loopAux P v tw n st') := by
  intro n
  induction n with
  | zero => intro st st' h; exact h
  | succ n ih => intro st st' h; exact step_congr P v tw (ih h)

end CacheIndependence

end CryptoNight

namespace CryptoNight

section CacheIndependenceTop

lemma aesBlocks_congr (P : Primitives) (rk : Nat → Nat)
    {bl bl' : Nat → Nat} (hb : BlEq bl bl') :
    BlEq (aesBlocks P rk bl) (aesBlocks P rk bl') := by
  intro j hj
  unfold aesBlocks
  dsimp only
  rw [hb (2 * (j / 2)) (by omega), hb (2 * (j / 2) + 1) (by omega)]

lemma initAux_congr (P : Primitives) (rk : Nat → Nat) :
    ∀ n, ∀ {sa sb : (Nat → Nat) × (Nat → Nat)}, BlEq sa.2 sb.2 →
      BlEq (initAux P rk n sa).2 (initAux P rk n sb).2 ∧
      ∀ j, j < 16 * n →
        (initAux P rk n sa).1 j = (initAux P rk n sb).1 j := by
  intro n
  induction n with
  | zero =>
    intro sa sb hb
    exact ⟨hb, fun j hj => absurd hj (by omega)⟩
  | succ n ih =>
    intro sa sb hb
    obtain ⟨ih1, ih2⟩ := ih hb
    constructor
    · intro j hj
      simp only [initAux, initChunk]
      exact aesBlocks_congr P rk ih1 j hj
    · intro j hj
      simp only [initAux, initChunk]
      by_cases hjk : 16 * n ≤ j ∧ j < 16 * n + 16
      · rw [if_pos hjk, if_pos hjk]
        exact aesBlocks_congr P rk ih1 _ (by omega)
      · rw [if_neg hjk, if_neg hjk]
        exact ih2 j (by omega)

lemma finChunk_congr (P : Primitives) (rk : Nat → Nat) (k : Nat)
    (hk : k < 16384) {sa sb : (Nat → Nat) × (Nat → Nat)}
    (hsp : SpEq spWords sa.1 sb.1) (hb : BlEq sa.2 sb.2) :
    SpEq spWords (finChunk P rk k sa).1 (finChunk P rk k sb).1 ∧
    BlEq (finChunk P rk k sa).2 (finChunk P rk k sb).2 := by
  have hnew : ∀ i, i < spWords →
      (finChunk P rk k sa).1 i = (finChunk P rk k sb).1 i := by
    intro i hi
    unfold finChunk
    dsimp only
    by_cases hik : 16 * k ≤ i ∧ i < 16 * k + 16
    · rw [if_pos hik, if_pos hik]
      have hs1 := hsp (16 * k + 2 * ((i - 16 * k) / 2))
        (by rw [spWords_val]; omega)
      have hs2 := hsp (16 * k + 2 * ((i - 16 * k) / 2) + 1)
        (by rw [spWords_val]; omega)
      have hb1 := hb (2 * ((i - 16 * k) / 2)) (by omega)
      have hb2 := hb (2 * ((i - 16 * k) / 2) + 1) (by omega)
      rw [hs1, hs2, hb1, hb2]
    · rw [if_neg hik, if_neg hik]
      exact hsp i hi
  refine ⟨hnew, fun j hj => ?_⟩
  show (finChunk P rk k sa).1 (16 * k + j) =
    (finChunk P rk k sb).1 (16 * k + j)
  exact hnew (16 * k + j) (by rw [spWords_val]; omega)

lemma finAux_congr (P : Primitives) (rk : Nat → Nat) :
    ∀ n, n ≤ 16384 → ∀ {sa sb : (Nat → Nat) × (Nat → Nat)},
      SpEq spWords sa.1 sb.1 → BlEq sa.2 sb.2 →
      SpEq spWords (finAux P rk n sa).1 (finAux P rk n sb).1 ∧
      BlEq (finAux P rk n sa).2 (finAux P rk n sb).2 := by
  intro n
  induction n with
  | zero => intro _ sa sb hsp hb; exact ⟨hsp, hb⟩
  | succ n ih =>
    intro hn sa sb hsp hb
    obtain ⟨ih1, ih2⟩ := ih (by omega) hsp hb
    simp only [finAux]
    exact finChunk_congr P rk n (by omega) ih1 ih2

lemma initialScratch_congr (P : Primitives) (fs : Nat → Nat)
    (c c' : Cache) :
    SpEq spWords (initialScratch P c fs) (initialScratch P c' fs) := by
  intro j hj
  unfold initialScratch
  refine (initAux_congr P (P.cnExpandKey (fs 0, fs 1, fs 2, fs 3))
    16384 ?_).2 j ?_
  · exact fun j hj => rfl
  · rw [spWords_val] at hj
    omega

lemma loopResult_congr (P : Primitives) (fs : Nat → Nat) (tw : Nat)
    (v : Int) (c c' : Cache) :
    StEq (loopResult P c fs tw v) (loopResult P c' fs tw v) := by
  unfold loopResult
  exact loopAux_congr P v tw 524288
    ⟨rfl, rfl, rfl, rfl, rfl, rfl, initialScratch_congr P fs c c'⟩

lemma finalResult_congr (P : Primitives) (fs : Nat → Nat) (tw : Nat)
    (v : Int) (c c' : Cache) :
    SpEq spWords (finalResult P c fs tw v).1 (finalResult P c' fs tw v).1 ∧
    BlEq (finalResult P c fs tw v).2 (finalResult P c' fs tw v).2 := by
  unfold finalResult
  exact finAux_congr P _ 16384 le_rfl
    (loopResult_congr P fs tw v c c').2.2.2.2.2.2 (fun j hj => rfl)

lemma postState_congr (P : Primitives) (fs : Nat → Nat) (tw : Nat)
    (v : Int) (c c' : Cache) :
    postState P c fs tw v = postState P c' fs tw v := by
  unfold postState
  have hfun : (fun i =>
      if 8 ≤ i ∧ i < 24 then (finalResult P c fs tw v).2 (i - 8)
      else fs i) = (fun i =>
      if 8 ≤ i ∧ i < 24 then (finalResult P c' fs tw v).2 (i - 8)
      else fs i) := by
    funext i
    by_cases h8 : 8 ≤ i ∧ i < 24
    · rw [if_pos h8, if_pos h8]
      exact (finalResult_congr P fs tw v c c').2 (i - 8) (by omega)
    · rw [if_neg h8, if_neg h8]
  rw [hfun]

lemma sumBody_digest_congr (P : Primitives) (fs : Nat → Nat) (tw : Nat)
    (v : Int) (c c' : Cache) :
    (sumBody P c fs tw v).2 = (sumBody P c' fs tw v).2 := by
  show finalHashDispatch P (postState P c fs tw v) =
    finalHashDispatch P (postState P c' fs tw v)
  rw [postState_congr P fs tw v c c']

end CacheIndependenceTop

/-- C5: the digest returned by `Cache.Sum` is a function of
`(data, variant)` only, independent of the Cache's prior `finalState` and
scratchpad contents (first conjunct); consequently running
`c.Sum(x1, v1)` and then `c.Sum(x2, v2)` yields the same second digest as
a fresh zero-initialized Cache computing `Sum(x2, v2)` once (second
conjunct), and the zero-initialized Cache is a valid starting value. -/
theorem cache_reuse_equivalence (P : Primitives) (x2 : List Nat)
    (v2 : Int) :
    (∀ c c' : Cache, (CacheSum P c x2 v2).2 = (CacheSum P c' x2 v2).2) ∧
    (∀ (c : Cache) (x1 : List Nat) (v1 : Int),
      (CacheSum P (CacheSum P c x1 v1).1 x2 v2).2 =
        (CacheSum P zeroCache x2 v2).2) := by
  have hmain : ∀ c c' : Cache,
      (CacheSum P c x2 v2).2 = (CacheSum P c' x2 v2).2 := by
    intro c c'
    by_cases hv : v2 = 1
    · by_cases hlen : 43 ≤ x2.length
      · simp only [CacheSum, if_pos hv, if_pos hlen]
        exact congrArg some (sumBody_digest_congr P _ _ 1 c c')
      · simp only [CacheSum, if_pos hv, if_neg hlen]
    · simp only [CacheSum, if_neg hv]
      exact congrArg some (sumBody_digest_congr P _ 0 v2 c c')
  exact ⟨hmain, fun c x1 v1 => hmain _ zeroCache⟩

end CryptoNight
